import Mathlib

/-!
Shallow embedding of the diesel text-editor front-end (src/render.rs,
src/viewport.rs, src/menu.rs, src/util.rs) and proofs about it.

Machine integers (`usize`, `u16`) are modelled as `Nat`; Rust's `usize`
subtraction only occurs behind guards in the embedded code, and where a
claim is about underflow we state the side condition over `Int`.
Operations whose Rust counterpart can panic are modelled with `Option`
(`none` = panic).  Terminal escape-sequence output is modelled as a list
of emitted instructions (`Instr`); the emitted string is nonempty exactly
when the instruction list is.
-/

namespace Diesel

/-! ## render.rs: colors, cells, grids -/

/-- Color enumeration from render.rs (`AnsiValue` carries a `u8`). -/
inductive Color where
  | AnsiValue (v : Nat)
  | White | Black | Blue | Cyan | Green | Magenta | Red | Yellow
  | LightWhite | LightBlack | LightBlue | LightCyan
  | LightGreen | LightMagenta | LightRed | LightYellow
deriving DecidableEq, Repr

/-- Newtype `Fg(pub Color)` from render.rs. -/
structure Fg where
  color : Color
deriving DecidableEq, Repr

/-- Newtype `Bg(pub Color)` from render.rs. -/
structure Bg where
  color : Color
deriving DecidableEq, Repr

/-- `static DEFAULT_FG: Fg = Fg(Color::White)`. -/
def DEFAULT_FG : Fg := ⟨Color.White⟩

/-- `static DEFAULT_BG: Bg = Bg(Color::Black)`. -/
def DEFAULT_BG : Bg := ⟨Color.Black⟩

/-- `struct Cell(char, Fg, Bg)` from render.rs. -/
structure Cell where
  ch : Char
  fg : Fg
  bg : Bg
deriving DecidableEq, Repr

/-- `impl Default for Cell`: space with default foreground/background. -/
def Cell.default : Cell := ⟨' ', DEFAULT_FG, DEFAULT_BG⟩

/-- `struct Grid { size: Extent2<usize>, cells: Vec<Cell> }`, row-major.
`size.1` is the width `w`, `size.2` the height `h`. -/
structure Grid where
  size : Nat × Nat
  cells : List Cell
deriving DecidableEq, Repr

/-- `Grid::idx_of`: `Some(w * y + x)` when `x < w && y < h`, else `None`. -/
def Grid.idx_of (g : Grid) (pos : Nat × Nat) : Option Nat :=
  if pos.1 < g.size.1 ∧ pos.2 < g.size.2 then some (g.size.1 * pos.2 + pos.1)
  else none

/-- `Grid::get`: `cells.get(idx).copied().unwrap_or_default()` on an
in-bounds index, the default `Cell` out of bounds. -/
def Grid.get (g : Grid) (pos : Nat × Nat) : Cell :=
  (((g.idx_of pos).bind fun idx => g.cells[idx]?)).getD Cell.default

/-- `Grid::set`: `cells.get_mut(idx).map(|c| *c = cell)` on an in-bounds
index (a no-op when `idx` is past the backing vector, like `get_mut(idx)`
returning `None`), and a silent no-op out of bounds. -/
def Grid.set (g : Grid) (pos : Nat × Nat) (c : Cell) : Grid :=
  match g.idx_of pos with
  | some idx => { g with cells := g.cells.set idx c }
  | none => g

/-! ## render.rs: RenderBuffer and render_ansi -/

/-- One emitted terminal instruction of `RenderBuffer::render_ansi`:
a cursor move `cursor::Goto(col+1, row+1)`, a foreground or background
color escape, or one printed character. -/
inductive Instr where
  | goto (col row : Nat)
  | setFg (f : Fg)
  | setBg (b : Bg)
  | printCh (c : Char)
deriving DecidableEq, Repr

/-- `struct RenderBuffer { size, grids: (Grid, Grid), fg, bg }`;
`grids.0` is the front (already drawn), `grids.1` the back. -/
structure RenderBuffer where
  size : Nat × Nat
  front : Grid
  back : Grid
  fg : Fg
  bg : Bg
deriving DecidableEq, Repr

/-- Mutable state threaded through the `render_ansi` double loop:
the output built so far, the front grid, and the memoized
`last_pos`, `last_fg`, `last_bg`. -/
structure RState where
  out : List Instr
  front : Grid
  last_pos : Nat × Nat
  last_fg : Fg
  last_bg : Bg
deriving DecidableEq, Repr

/-- Body of the `render_ansi` loop for one position `(col, row)`.
`none` models the `get_mut` panic on a front grid smaller than the
iteration space.  Mirrors render.rs lines 267-292: diff front against
back, emit `Goto` unless the previous emitted cell was the immediate
left neighbor, emit colors only on change, print the character, commit
the back cell into the front grid, remember the position. -/
def renderStep (back : Grid) (st : RState) (p : Nat × Nat) : Option RState :=
  (st.front.idx_of p).bind fun idx =>
    if idx < st.front.cells.length then
      if (st.front.cells[idx]?).getD Cell.default = back.get p then some st
      else
        some ⟨(if st.last_pos ≠ (p.1 - 1, p.2) then st.out ++ [Instr.goto (p.1 + 1) (p.2 + 1)]
                else st.out) ++
              (if st.last_fg ≠ (back.get p).fg then [Instr.setFg (back.get p).fg] else []) ++
              (if st.last_bg ≠ (back.get p).bg then [Instr.setBg (back.get p).bg] else []) ++
              [Instr.printCh (back.get p).ch],
              ⟨st.front.size, st.front.cells.set idx (back.get p)⟩,
              p,
              (if st.last_fg ≠ (back.get p).fg then (back.get p).fg else st.last_fg),
              (if st.last_bg ≠ (back.get p).bg then (back.get p).bg else st.last_bg)⟩
    else none

/-- Row-major iteration space of the `render_ansi` double loop:
`for row in 0..h { for col in 0..w { ... } }`, positions as `(col, row)`. -/
def rowMajor (w h : Nat) : List (Nat × Nat) :=
  (List.range h).flatMap fun row => (List.range w).map fun col => (col, row)

/-- `RenderBuffer::render_ansi`: run the diff loop over every position,
returning the emitted instruction stream and the updated buffer
(front committed, back untouched).  `last_pos` starts at `Vec2::one()`,
the colors at the defaults. -/
def RenderBuffer.render_ansi (rb : RenderBuffer) : Option (List Instr × RenderBuffer) :=
  (List.foldlM (renderStep rb.back) ⟨[], rb.front, (1, 1), DEFAULT_FG, DEFAULT_BG⟩
      (rowMajor rb.size.1 rb.size.2)).map
    fun st => (st.out, ⟨rb.size, st.front, rb.back, rb.fg, rb.bg⟩)

/-! ## viewport.rs: Viewport, scrolling, ViewportManager -/

/-- Cursor of the external scribe buffer: current `(line, offset)`. -/
structure Cursor where
  line : Nat
  offset : Nat
deriving DecidableEq, Repr

/-- The slice of the external `scribe::Buffer` contract viewport.rs
consumes: a cursor, the full text, and `line_count()`. -/
structure Buffer where
  cursor : Cursor
  contents : List Char
  line_count : Nat
deriving DecidableEq, Repr

/-- `enum ViewportData { Buffer(..), Terminal(String) }`. -/
inductive ViewportData where
  | buffer (b : Buffer)
  | terminal (s : List Char)
deriving DecidableEq, Repr

/-- `struct Viewport` from viewport.rs.  `size.1` is the width,
`size.2` the height; `origin` likewise `(x, y)`. -/
structure Viewport where
  origin : Nat × Nat
  size : Nat × Nat
  title : List Char
  data : ViewportData
  starting_visible_line : Nat
  starting_visible_column : Nat
deriving DecidableEq, Repr

/-- Vertical scroll reconciliation performed at the start of
`Viewport::render` when focused (viewport.rs lines 56-62), as a function
of the fields it reads: `origin.1` (the y origin), `size.1` (the
height), the current `starting_visible_line` and the buffer's cursor
line.  Subtraction is `Nat` (truncated) subtraction; every subtraction
in the source sits behind the guard shown. -/
def reconcileVertical (origin_y size_h svl cursor_line : Nat) : Nat :=
  if cursor_line ≥ svl then
    if cursor_line - svl > size_h - origin_y then
      svl + (cursor_line - (svl + (size_h - origin_y)))
    else svl
  else
    svl - (svl - cursor_line)

/-- `fn flt_min(a, b) -> f32 { if a > b { b } else { a } }`, over `ℚ`
(the source's `f32`; every property proved about it is an order
property preserved by the monotone float rounding). -/
def flt_min (a b : ℚ) : ℚ := if a > b then b else a

/-- `fn flt_max(a, b) -> f32 { if a < b { b } else { a } }`, over `ℚ`. -/
def flt_max (a b : ℚ) : ℚ := if a < b then b else a

/-- `Viewport::vertical_scroll_percent` (viewport.rs lines 141-150):
`flt_min(1.0, (starting_visible_line + size.1 - 1) as f32 / lines as f32)`
for a buffer viewport; `none` models the `unimplemented!()` panic of the
terminal arm.  The numerator `starting_visible_line + size.1 - 1` is an
unguarded `usize` subtraction: when `starting_visible_line + size.1 = 0`
it underflows — a Rust panic in a debug build (a release build wraps to
`usize::MAX`, so the quotient blows past 1) — and like every other
panic in this file that arm is `none`, never a silently truncated 0. -/
def Viewport.vertical_scroll_percent (v : Viewport) : Option ℚ :=
  match v.data with
  | .buffer b =>
      if v.starting_visible_line + v.size.2 = 0 then none
      else
        some (flt_min 1 (((v.starting_visible_line + v.size.2 - 1 : ℕ) : ℚ) / (b.line_count : ℚ)))
  | .terminal _ => none

/-- `struct ViewportManager` from viewport.rs. -/
structure ViewportManager where
  origin : Nat × Nat
  size : Nat × Nat
  viewports : List Viewport
  focus_index : Nat
deriving DecidableEq, Repr

/-- `ViewportManager::close_focused_viewport` (viewport.rs lines
319-327): on a nonempty list, `Vec::remove(focus_index)` (which panics —
`none` — when `focus_index` is past the end) and then decrement
`focus_index` only when it is nonzero; a silent no-op on an empty
list. -/
def ViewportManager.close_focused_viewport (m : ViewportManager) : Option ViewportManager :=
  if m.viewports.isEmpty then some m
  else if m.focus_index < m.viewports.length then
    some { m with viewports := m.viewports.eraseIdx m.focus_index,
                  focus_index := if m.focus_index > 0 then m.focus_index - 1 else m.focus_index }
  else none

/-! ## menu.rs: Menu, separator-skipping selection movement -/

/-- `enum Action` from menu.rs. -/
inductive Action where
  | Close | New | Save | SaveAs | Open | Undo | Redo | About | Scripted
deriving DecidableEq, Repr

/-- `enum MenuAction { Separator, Action(Action), SubMenu(Menu) }`;
the `SubMenu` arm carries the nested menu's `children` list. -/
inductive MenuAction where
  | Separator : MenuAction
  | action : Action → MenuAction
  | subMenu : List (List Char × MenuAction) → MenuAction

/-- `struct Menu { children: Vec<(String, MenuAction)> }`. -/
structure Menu where
  children : List (List Char × MenuAction)

/-- Whether a child entry is `MenuAction::Separator` (the pattern tested
by `previous`/`next`). -/
def MenuAction.isSeparator : MenuAction → Bool
  | .Separator => true
  | _ => false

/-- `self.children[i].1`; the claims only exercise in-bounds indices, so
an out-of-range index (a panic in Rust) is mapped to a `Separator`
default, which the fueled skip loop then reports as `none`. -/
def Menu.childAt (m : Menu) (i : Nat) : MenuAction :=
  ((m.children.getD i ([], MenuAction.Separator))).2

/-- The one-step index move of `Menu::next`:
`if i + 1 >= len { 0 } else { i + 1 }`. -/
def Menu.succIdx (m : Menu) (i : Nat) : Nat :=
  if i + 1 ≥ m.children.length then 0 else i + 1

/-- The one-step index move of `Menu::previous`:
`if (i as isize) - 1 < 0 { len - 1 } else { i - 1 }`. -/
def Menu.predIdx (m : Menu) (i : Nat) : Nat :=
  if (i : Int) - 1 < 0 then m.children.length - 1 else i - 1

/-- `Menu::next` with explicit fuel: the Rust function recurses with no
bound and diverges on an all-separator menu, so the embedding consumes
one unit of fuel per skipped separator; `none` models divergence.
`Menu.next` below supplies `children.length` fuel, enough whenever a
non-separator exists. -/
def Menu.nextAux (m : Menu) : Nat → Nat → Option Nat
  | 0, _ => none
  | fuel + 1, i =>
    let j := m.succIdx i
    if (m.childAt j).isSeparator then m.nextAux fuel j else some j

/-- `Menu::previous` with explicit fuel, like `Menu.nextAux`. -/
def Menu.previousAux (m : Menu) : Nat → Nat → Option Nat
  | 0, _ => none
  | fuel + 1, i =>
    let j := m.predIdx i
    if (m.childAt j).isSeparator then m.previousAux fuel j else some j

/-- `Menu::next` (menu.rs lines 225-232). -/
def Menu.next (m : Menu) (i : Nat) : Option Nat :=
  m.nextAux m.children.length i

/-- `Menu::previous` (menu.rs lines 216-223). -/
def Menu.previous (m : Menu) (i : Nat) : Option Nat :=
  m.previousAux m.children.length i

/-- Iterated `succIdx`, used to state which indices the skip loop
visits. -/
def Menu.iterSucc (m : Menu) : Nat → Nat → Nat
  | 0, i => i
  | n + 1, i => m.iterSucc n (m.succIdx i)

/-- Iterated `predIdx`. -/
def Menu.iterPred (m : Menu) : Nat → Nat → Nat
  | 0, i => i
  | n + 1, i => m.iterPred n (m.predIdx i)

/-! ## util.rs: the input dialog -/

/-- `enum InputType { Any, Path }` from util.rs. -/
inductive InputType where
  | Any
  | Path
deriving DecidableEq, Repr

/-- The key events the `input` dialog's match distinguishes:
`KeyCode::Char(c)`, `KeyCode::Esc`, `KeyCode::Backspace`, and every
other event (the `_ => continue` arm).  The source listens for the
confirm key as `KeyCode::Char('\n')`. -/
inductive InputEvent where
  | char (c : Char)
  | esc
  | backspace
  | other
deriving DecidableEq, Repr

/-- Outcome of running the `input` dialog on a finite event list:
`confirmed` models `return Some(entered_text)`, `cancelled` models
falling out of `'mainloop` to `None` via Escape, `pending` holds the
entered text while the loop is still blocked waiting for input. -/
inductive InputResult where
  | confirmed (text : List Char)
  | cancelled
  | pending (text : List Char)
deriving DecidableEq, Repr

/-- The inner `loop { match event::read() ... }` of `util::input`
(util.rs lines 212-221).  None of its arms breaks back into the
rendering loop, so `bd` (`button_disabled`) is fixed for its whole run:

* `Char('\n')` with `!button_disabled` returns the text;
* `Esc` breaks `'mainloop` (cancels);
* any other `Char(c)` — including `'\n'` while disabled — is pushed;
* `Backspace` pops when the text is nonempty;
* everything else is skipped. -/
def inputLoop (bd : Bool) : List Char → List InputEvent → InputResult
  | text, [] => .pending text
  | text, .char c :: rest =>
      if c = '\n' ∧ bd = false then .confirmed text
      else inputLoop bd (text ++ [c]) rest
  | _, .esc :: _ => .cancelled
  | text, .backspace :: rest =>
      if text.isEmpty then inputLoop bd text rest
      else inputLoop bd text.dropLast rest
  | text, .other :: rest => inputLoop bd text rest

/-- `util::input` (util.rs lines 162-225) run against a finite event
list.  `exists?` stands for `PathBuf::from(&entered_text).exists()`,
the only filesystem query the dialog makes.  `button_disabled` is
computed from the *initial* text when the single outer-loop iteration
renders, and is never recomputed, because no arm of the inner loop
breaks back out to the renderer. -/
def input (exists? : List Char → Bool) (initial_input : List Char)
    (ty : InputType) (events : List InputEvent) : InputResult :=
  let bd : Bool := match ty with
    | .Any => false
    | .Path => !(exists? initial_input)
  inputLoop bd initial_input events

/-! ## util.rs: `lines`

`util::lines` iterates `src.chars().enumerate()` — so `i` counts
*characters* — but slices `&src[current_start..i]` — which indexes
*bytes* and panics off a UTF-8 character boundary.  The embedding keeps
a string as its character list and performs the byte-indexed slicing
against the UTF-8 byte widths (`Char.utf8Size`), returning `none` for
the boundary panic. -/

/-- `&str` byte-suffix: drop `n` bytes from the front of a character
list; `none` when `n` is not a character boundary (a Rust slicing
panic) or past the end. -/
def dropBytes : List Char → Nat → Option (List Char)
  | s, 0 => some s
  | [], _ + 1 => none
  | c :: cs, n + 1 =>
    if c.utf8Size ≤ n + 1 then dropBytes cs (n + 1 - c.utf8Size) else none

/-- `&str` byte-prefix: take `n` bytes from the front of a character
list; `none` when `n` is not a character boundary or past the end. -/
def takeBytes : List Char → Nat → Option (List Char)
  | _, 0 => some []
  | [], _ + 1 => none
  | c :: cs, n + 1 =>
    if c.utf8Size ≤ n + 1 then (takeBytes cs (n + 1 - c.utf8Size)).map (c :: ·)
    else none

/-- `&src[a..b]`: drop `a` bytes then take `b - a` bytes; the source
never slices with `a > b` but Rust would panic there too. -/
def sliceBytes (s : List Char) (a b : Nat) : Option (List Char) :=
  if a ≤ b then (dropBytes s a).bind (fun t => takeBytes t (b - a)) else none

/-- The `while let Some((i, c)) = chars.next()` loop of `util::lines`
(util.rs lines 23-32) over the remaining enumerated characters, with
the loop state `(current_start, starting_next_line, lines)`; `none`
propagates a slicing panic. -/
def linesLoop (src : List Char) :
    List (Nat × Char) → Nat → Bool → List (List Char) → Option (Nat × List (List Char))
  | [], current_start, _, acc => some (current_start, acc)
  | (i, c) :: rest, current_start, starting_next_line, acc =>
    let cs := if starting_next_line then i else current_start
    if c = '\n' then
      (sliceBytes src cs i).bind fun piece =>
        linesLoop src rest cs true (acc ++ [piece])
    else
      linesLoop src rest cs false acc

/-- `util::lines` (util.rs lines 13-41): empty input is `vec![""]`;
otherwise run the loop, then push a final `""` when the source ends in
a newline, else push the (byte-sliced) tail `&src[current_start..]`
when it is nonempty. -/
def lines (src : List Char) : Option (List (List Char)) :=
  if src.isEmpty then some [[]]
  else
    (linesLoop src src.enum 0 true []).bind fun st =>
      if src.getLast? = some '\n' then some (st.2 ++ [[]])
      else
        (dropBytes src st.1).bind fun tail =>
          if tail.isEmpty then some st.2 else some (st.2 ++ [tail])

/-! ## Concrete values used by witnesses -/

/-- A buffer with ten lines and the cursor at the origin. -/
def exBuffer : Buffer := ⟨⟨0, 0⟩, [], 10⟩

/-- A buffer viewport as `ViewportManager::new_viewport` lays one out
under a manager at origin `(0, 1)` on an 80×24 terminal. -/
def exViewport : Viewport := ⟨(1, 2), (80, 22), [], .buffer exBuffer, 3, 0⟩

/-- A manager holding the single viewport above, focused on it. -/
def exManager : ViewportManager := ⟨(0, 1), (80, 24), [exViewport], 0⟩

/-- A buffer viewport of height 0 with `starting_visible_line` 0 — the
layout `new_viewport` produces on a 2-row terminal — on which the
scrollbar numerator underflows. -/
def exViewportZeroH : Viewport := ⟨(1, 2), (80, 0), [], .buffer exBuffer, 0, 0⟩

/-- The five-entry menu of the claim about separator skipping: entry 2
is a `Separator`, the rest are actions. -/
def exMenu5 : Menu :=
  ⟨[(['N'], .action .New), (['O'], .action .Open), ([], .Separator),
    (['S'], .action .Save), (['Q'], .action .Close)]⟩

/-- A 2×1 render buffer whose back grid differs from its front in the
second cell. -/
def exRenderBuffer : RenderBuffer :=
  ⟨(2, 1), ⟨(2, 1), [Cell.default, Cell.default]⟩,
   ⟨(2, 1), [Cell.default, ⟨'x', DEFAULT_FG, DEFAULT_BG⟩]⟩,
   DEFAULT_FG, DEFAULT_BG⟩

/-- A 2×2 grid of default cells. -/
def exGrid : Grid := ⟨(2, 2), [Cell.default, Cell.default, Cell.default, Cell.default]⟩

/-! ## Theorems -/

/-- Claim C2: for a focused buffer viewport with the geometry every
viewport in this program has (`1 ≤ origin.y ≤ height`), the scroll
reconciliation at the start of `Viewport::render` leaves
`starting_visible_line ≤ cursor.line < starting_visible_line + height`,
for any cursor line and any prior `starting_visible_line`. -/
theorem render_reconcile_keeps_cursor_in_view (v : Viewport) (b : Buffer)
    (h1 : 1 ≤ v.origin.2) (h2 : v.origin.2 ≤ v.size.2) :
    reconcileVertical v.origin.2 v.size.2 v.starting_visible_line b.cursor.line ≤ b.cursor.line ∧
    b.cursor.line <
      reconcileVertical v.origin.2 v.size.2 v.starting_visible_line b.cursor.line + v.size.2 := by
  unfold reconcileVertical
  split_ifs <;> omega

/-- Witness for the claim C2 theorem at the concrete example viewport:
cursor at line 0 while `starting_visible_line = 3`. -/
theorem render_reconcile_keeps_cursor_in_view_witness :
    (1 ≤ exViewport.origin.2 ∧ exViewport.origin.2 ≤ exViewport.size.2) ∧
    (reconcileVertical exViewport.origin.2 exViewport.size.2 exViewport.starting_visible_line
        exBuffer.cursor.line ≤ exBuffer.cursor.line ∧
      exBuffer.cursor.line <
        reconcileVertical exViewport.origin.2 exViewport.size.2 exViewport.starting_visible_line
          exBuffer.cursor.line + exViewport.size.2) :=
  ⟨by decide, render_reconcile_keeps_cursor_in_view exViewport exBuffer (by decide) (by decide)⟩

/-- Claim C9: whenever the cursor line is strictly above
`starting_visible_line`, the scroll-up branch sets
`starting_visible_line` to exactly the cursor line, and both unchecked
`usize` subtractions are exact over `ℤ` (no underflow). -/
theorem render_scroll_up_exact (origin_y size_h svl cursor_line : Nat)
    (h : cursor_line < svl) :
    reconcileVertical origin_y size_h svl cursor_line = cursor_line ∧
    0 ≤ (svl : ℤ) - (cursor_line : ℤ) ∧
    (svl : ℤ) - ((svl : ℤ) - (cursor_line : ℤ)) = (cursor_line : ℤ) := by
  unfold reconcileVertical
  split_ifs <;> omega

/-- Witness for the claim C9 theorem at the boundary case: cursor at
line 0 with `starting_visible_line = 5`. -/
theorem render_scroll_up_exact_witness :
    0 < 5 ∧
    (reconcileVertical 2 22 5 0 = 0 ∧
      0 ≤ (5 : ℤ) - (0 : ℤ) ∧ (5 : ℤ) - ((5 : ℤ) - (0 : ℤ)) = (0 : ℤ)) :=
  ⟨by decide, render_scroll_up_exact 2 22 5 0 (by decide)⟩

/-- Claim C5: `close_focused_viewport` removes the focused entry,
decrements `focus_index` exactly when it was nonzero, is a no-op on an
empty list, and closing the only viewport at focus 0 leaves an empty
list with focus 0 and no underflow. -/
theorem close_focused_viewport_spec (m : ViewportManager)
    (h : m.focus_index < m.viewports.length ∨ m.viewports = []) :
    ∃ m', m.close_focused_viewport = some m' ∧
      (m.viewports = [] → m' = m) ∧
      (m.viewports ≠ [] →
        m'.viewports = m.viewports.eraseIdx m.focus_index ∧
        m'.viewports.length + 1 = m.viewports.length ∧
        m'.focus_index = if m.focus_index = 0 then 0 else m.focus_index - 1) ∧
      (m.viewports.length = 1 ∧ m.focus_index = 0 → m'.viewports = [] ∧ m'.focus_index = 0) := by
  rcases h with h | h
  · have hne : m.viewports.isEmpty = false := by
      cases hv : m.viewports with
      | nil => rw [hv] at h; simp at h
      | cons a l => simp
    refine ⟨({ m with viewports := m.viewports.eraseIdx m.focus_index, focus_index := if m.focus_index > 0 then m.focus_index - 1 else m.focus_index } : ViewportManager), ?_, ?_, ?_, ?_⟩
    · unfold ViewportManager.close_focused_viewport
      rw [hne]
      simp [h]
    · intro hnil
      rw [hnil] at h; simp at h
    · intro _
      refine ⟨rfl, ?_, ?_⟩
      · have := List.length_eraseIdx_add_one h
        simp only
        omega
      · simp only
        by_cases h0 : m.focus_index = 0 <;> simp [h0]
    · rintro ⟨hlen, hfoc⟩
      constructor
      · cases hv : m.viewports with
        | nil => rw [hv] at hlen; simp at hlen
        | cons a l =>
          rw [hv] at hlen
          simp at hlen
          simp [hfoc, hv, List.eraseIdx, hlen]
      · simp [hfoc]
  · refine ⟨m, by unfold ViewportManager.close_focused_viewport; simp [h],
        fun _ => rfl, fun hne => absurd h hne, ?_⟩
    rintro ⟨hlen, _⟩
    rw [h] at hlen; simp at hlen

/-- Witness for the claim C5 theorem: closing the only viewport of the
example manager, which is focused at index 0. -/
theorem close_focused_viewport_spec_witness :
    (exManager.focus_index < exManager.viewports.length ∨ exManager.viewports = []) ∧
    (∃ m', exManager.close_focused_viewport = some m' ∧
      (exManager.viewports = [] → m' = exManager) ∧
      (exManager.viewports ≠ [] →
        m'.viewports = exManager.viewports.eraseIdx exManager.focus_index ∧
        m'.viewports.length + 1 = exManager.viewports.length ∧
        m'.focus_index = if exManager.focus_index = 0 then 0 else exManager.focus_index - 1) ∧
      (exManager.viewports.length = 1 ∧ exManager.focus_index = 0 →
        m'.viewports = [] ∧ m'.focus_index = 0)) :=
  ⟨Or.inl (by decide), close_focused_viewport_spec exManager (Or.inl (by decide))⟩

/-- Claim C8: `Grid::set` at an out-of-bounds position leaves the grid
unchanged (its only effect arm is behind the bounds check, so nothing
panics), and `Grid::get` there returns the default cell. -/
theorem grid_out_of_bounds_noop (g : Grid) (pos : Nat × Nat) (c : Cell)
    (h : ¬(pos.1 < g.size.1 ∧ pos.2 < g.size.2)) :
    g.set pos c = g ∧ g.get pos = Cell.default := by
  unfold Grid.set Grid.get Grid.idx_of
  simp [h]

/-- Witness for the claim C8 theorem: writing and reading position
`(5, 0)` of a 2×2 grid. -/
theorem grid_out_of_bounds_noop_witness :
    ¬((5, 0).1 < exGrid.size.1 ∧ (5, 0).2 < exGrid.size.2) ∧
    (exGrid.set (5, 0) ⟨'z', DEFAULT_FG, DEFAULT_BG⟩ = exGrid ∧
      exGrid.get (5, 0) = Cell.default) :=
  ⟨by decide, grid_out_of_bounds_noop exGrid (5, 0) ⟨'z', DEFAULT_FG, DEFAULT_BG⟩ (by decide)⟩

/-- Claim C1 (code bug): `util::input`'s inner key loop never breaks
back to the renderer, so `button_disabled` is computed once from the
initial text and never again.  Deleting an initially-valid `Path` text
and pressing the confirm key still returns `Some("")` even though
validation fails at that moment, contradicting the function's own doc
comment "Will only accept valid input"; and while the button is
disabled the confirm key is not a no-op — it appends `'\n'` to the
text.  (Escape alone behaves as claimed.) -/
theorem input_validation_frozen :
    input (fun t => t == "/tmp".data) "/tmp".data .Path
        [.backspace, .backspace, .backspace, .backspace, .char '\n'] =
      .confirmed [] ∧
    input (fun _ => false) "/nonexistent".data .Path [.char '\n'] =
      .pending ("/nonexistent".data ++ ['\n']) ∧
    input (fun _ => false) "/nonexistent".data .Path [.esc] = .cancelled := by
  refine ⟨by decide, by decide, by decide⟩

/-- Claim C10 (code bug): `util::lines` enumerates characters but
slices at those counts as byte offsets, so any multibyte character
before a newline makes it slice off a UTF-8 boundary and panic
(`none`); on ASCII input it splits as described. -/
theorem lines_panics_on_multibyte :
    lines ['é', '\n'] = none ∧
    lines "ab\ncd".data = some [['a', 'b'], ['c', 'd']] ∧
    lines "a\n".data = some [['a'], []] := by
  refine ⟨by decide, by decide, by decide⟩

/-- Claim C7 counterexample: a buffer viewport with nonzero line count
but `starting_visible_line = 0` and height 0 — the layout
`new_viewport` produces on a 2-row terminal.  The claim asserts
`vertical_scroll_percent` returns `min(1, (0 + 0 - 1) / 10)`, a value
in `[0, 1]`; the source's unguarded `usize` numerator underflows there
instead (debug panic; a release build wraps far past 1), so no value as
described is returned. -/
theorem vertical_scroll_percent_underflow :
    exViewportZeroH.data = .buffer exBuffer ∧ exBuffer.line_count ≠ 0 ∧
    exViewportZeroH.vertical_scroll_percent = none :=
  ⟨rfl, by decide, rfl⟩

/-- Claim C7 (amended): for a buffer viewport with a nonzero line count
whose numerator does not underflow (`starting_visible_line + height`
nonzero, in particular any viewport of nonzero height),
`vertical_scroll_percent` computes
`min(1, (starting_visible_line + height - 1) / line_count)`, lies in
`[0, 1]`, and is exactly `1` whenever the bottom of the buffer is
visible (`line_count ≤ starting_visible_line + height - 1`). -/
theorem vertical_scroll_percent_spec (v : Viewport) (b : Buffer)
    (hdata : v.data = .buffer b) (hlines : b.line_count ≠ 0)
    (hnz : v.starting_visible_line + v.size.2 ≠ 0) :
    ∃ p, v.vertical_scroll_percent = some p ∧
      p = flt_min 1 (((v.starting_visible_line + v.size.2 - 1 : ℕ) : ℚ) / (b.line_count : ℚ)) ∧
      0 ≤ p ∧ p ≤ 1 ∧
      (b.line_count ≤ v.starting_visible_line + v.size.2 - 1 → p = 1) := by
  have hpos : (0 : ℚ) < (b.line_count : ℚ) := by
    exact_mod_cast Nat.pos_of_ne_zero hlines
  refine ⟨flt_min 1 (((v.starting_visible_line + v.size.2 - 1 : ℕ) : ℚ) / (b.line_count : ℚ)),
      ?_, rfl, ?_, ?_, ?_⟩
  · unfold Viewport.vertical_scroll_percent
    rw [hdata]
    show (if v.starting_visible_line + v.size.2 = 0 then none
      else some (flt_min 1
        (((v.starting_visible_line + v.size.2 - 1 : ℕ) : ℚ) / (b.line_count : ℚ)))) = _
    rw [if_neg hnz]
  · unfold flt_min
    split_ifs with hgt
    · exact div_nonneg (Nat.cast_nonneg _) hpos.le
    · norm_num
  · unfold flt_min
    split_ifs with hgt
    · exact hgt.le
    · norm_num
  · intro hbot
    have hle : (b.line_count : ℚ) ≤ ((v.starting_visible_line + v.size.2 - 1 : ℕ) : ℚ) :=
      Nat.cast_le.mpr hbot
    have h1 : (1 : ℚ) ≤ ((v.starting_visible_line + v.size.2 - 1 : ℕ) : ℚ) / (b.line_count : ℚ) :=
      (one_le_div hpos).mpr hle
    unfold flt_min
    split_ifs with hgt
    · linarith
    · rfl

/-- Witness for the claim C7 theorem at the example viewport:
`starting_visible_line = 3`, height 22, 10 lines, so the bottom is
visible and the percent is exactly 1. -/
theorem vertical_scroll_percent_spec_witness :
    (exViewport.data = .buffer exBuffer ∧ exBuffer.line_count ≠ 0 ∧
      exViewport.starting_visible_line + exViewport.size.2 ≠ 0) ∧
    (∃ p, exViewport.vertical_scroll_percent = some p ∧
      p = flt_min 1
        (((exViewport.starting_visible_line + exViewport.size.2 - 1 : ℕ) : ℚ) /
          (exBuffer.line_count : ℚ)) ∧
      0 ≤ p ∧ p ≤ 1 ∧
      (exBuffer.line_count ≤ exViewport.starting_visible_line + exViewport.size.2 - 1 → p = 1)) :=
  ⟨⟨by decide, by decide, by decide⟩,
    vertical_scroll_percent_spec exViewport exBuffer rfl (by decide) (by decide)⟩

/-! ### Menu separator skipping: supporting lemmas -/

/-- The forward wrap step stays in bounds. -/
theorem Menu.succIdx_lt (m : Menu) (h : 0 < m.children.length) (i : Nat) :
    m.succIdx i < m.children.length := by
  unfold Menu.succIdx
  split <;> omega

/-- For an in-bounds index, the forward wrap step is addition mod the
child count. -/
theorem Menu.succIdx_mod (m : Menu) (i : Nat) (hi : i < m.children.length) :
    m.succIdx i = (i + 1) % m.children.length := by
  unfold Menu.succIdx
  split_ifs with h
  · have he : i + 1 = m.children.length := by omega
    rw [he, Nat.mod_self]
  · rw [Nat.mod_eq_of_lt (by omega)]

/-- The backward wrap step undoes the forward wrap step. -/
theorem Menu.predIdx_succIdx (m : Menu) (i : Nat) (hi : i < m.children.length) :
    m.predIdx (m.succIdx i) = i := by
  unfold Menu.predIdx Menu.succIdx
  split_ifs <;> omega

/-- Iterating the forward wrap step adds the step count mod the child
count. -/
theorem Menu.iterSucc_mod (m : Menu) (n : Nat) :
    ∀ i, i < m.children.length → m.iterSucc n i = (i + n) % m.children.length := by
  induction n with
  | zero =>
    intro i hi
    simpa [Menu.iterSucc] using (Nat.mod_eq_of_lt hi).symm
  | succ n ih =>
    intro i hi
    have hlen : 0 < m.children.length := by omega
    have hstep : m.iterSucc (n + 1) i = m.iterSucc n (m.succIdx i) := rfl
    rw [hstep, ih _ (m.succIdx_lt hlen i), m.succIdx_mod i hi, Nat.mod_add_mod]
    congr 1
    omega

/-- Iterated backward steps commute the step off the iteration. -/
theorem Menu.iterPred_comm (m : Menu) (n : Nat) :
    ∀ i, m.iterPred (n + 1) i = m.predIdx (m.iterPred n i) := by
  induction n with
  | zero => intro i; rfl
  | succ n ih =>
    intro i
    have h1 : m.iterPred (n + 1 + 1) i = m.iterPred (n + 1) (m.predIdx i) := rfl
    rw [h1, ih, ← Menu.iterPred]

/-- Iterated backward steps undo iterated forward steps. -/
theorem Menu.iterPred_iterSucc (m : Menu) (n : Nat) :
    ∀ i, i < m.children.length → m.iterPred n (m.iterSucc n i) = i := by
  induction n with
  | zero => intro i _; rfl
  | succ n ih =>
    intro i hi
    have hlen : 0 < m.children.length := by omega
    have h1 : m.iterSucc (n + 1) i = m.iterSucc n (m.succIdx i) := rfl
    rw [h1, Menu.iterPred_comm, ih _ (m.succIdx_lt hlen i), m.predIdx_succIdx i hi]

/-- Helper for reaching an arbitrary residue by a cyclic shift. -/
theorem mod_shift_reaches (len a k : Nat) (ha : a < len) (hk : k < len) :
    (a + (k + len - a) % len) % len = k := by
  rcases le_or_lt a k with h | h
  · have h1 : k + len - a = (k - a) + len := by omega
    rw [h1, Nat.add_mod_right, Nat.mod_eq_of_lt (show k - a < len by omega)]
    have h2 : a + (k - a) = k := by omega
    rw [h2, Nat.mod_eq_of_lt hk]
  · rw [Nat.mod_eq_of_lt (show k + len - a < len by omega)]
    have h2 : a + (k + len - a) = k + len := by omega
    rw [h2, Nat.add_mod_right, Nat.mod_eq_of_lt hk]

/-- From any in-bounds index, some number of forward wrap steps
(strictly fewer than the child count, plus the initial one) reaches any
other in-bounds index. -/
theorem Menu.exists_succ_reach (m : Menu) (i k : Nat)
    (hi : i < m.children.length) (hk : k < m.children.length) :
    ∃ d, d < m.children.length ∧ m.iterSucc (d + 1) i = k := by
  have hl : 0 < m.children.length := by omega
  refine ⟨(k + m.children.length - (i + 1) % m.children.length) % m.children.length,
      Nat.mod_lt _ hl, ?_⟩
  rw [m.iterSucc_mod _ i hi]
  have h1 : i + ((k + m.children.length - (i + 1) % m.children.length) % m.children.length + 1) =
      (i + 1) + (k + m.children.length - (i + 1) % m.children.length) % m.children.length := by
    omega
  rw [h1, ← Nat.mod_add_mod]
  exact mod_shift_reaches m.children.length ((i + 1) % m.children.length) k
    (Nat.mod_lt _ hl) hk

/-- From any in-bounds index, some number of backward wrap steps
reaches any other in-bounds index. -/
theorem Menu.exists_pred_reach (m : Menu) (i k : Nat)
    (hi : i < m.children.length) (hk : k < m.children.length) :
    ∃ d, d < m.children.length ∧ m.iterPred (d + 1) i = k := by
  obtain ⟨d, hd, hreach⟩ := m.exists_succ_reach k i hk hi
  exact ⟨d, hd, by rw [← hreach, m.iterPred_iterSucc _ _ hk]⟩

/-- If some forward iterate within the fuel bound is a non-separator,
the fueled skip loop of `Menu::next` succeeds and lands on a
non-separator, in bounds. -/
theorem Menu.nextAux_finds (m : Menu) (hlen : 0 < m.children.length) :
    ∀ fuel i, (∃ d, d < fuel ∧ (m.childAt (m.iterSucc (d + 1) i)).isSeparator = false) →
    ∃ j, m.nextAux fuel i = some j ∧ j < m.children.length ∧
      (m.childAt j).isSeparator = false := by
  intro fuel
  induction fuel with
  | zero =>
    rintro i ⟨d, hd, _⟩
    omega
  | succ fuel ih =>
    rintro i ⟨d, hd, hns⟩
    by_cases hsep : (m.childAt (m.succIdx i)).isSeparator = true
    · have hd0 : d ≠ 0 := by
        intro h0
        subst h0
        have h1 : m.iterSucc 1 i = m.succIdx i := rfl
        rw [h1] at hns
        rw [hns] at hsep
        cases hsep
      obtain ⟨d', rfl⟩ : ∃ d', d = d' + 1 := ⟨d - 1, by omega⟩
      have hstep : m.iterSucc (d' + 1 + 1) i = m.iterSucc (d' + 1) (m.succIdx i) := rfl
      rw [hstep] at hns
      obtain ⟨j, hj, hjlt, hjns⟩ := ih (m.succIdx i) ⟨d', by omega, hns⟩
      refine ⟨j, ?_, hjlt, hjns⟩
      rw [show m.nextAux (fuel + 1) i = if (m.childAt (m.succIdx i)).isSeparator then m.nextAux fuel (m.succIdx i) else some (m.succIdx i) from rfl]
      rw [hsep]
      simpa using hj
    · have hns' : (m.childAt (m.succIdx i)).isSeparator = false := by
        simpa using hsep
      refine ⟨m.succIdx i, ?_, m.succIdx_lt hlen i, hns'⟩
      rw [show m.nextAux (fuel + 1) i = if (m.childAt (m.succIdx i)).isSeparator then m.nextAux fuel (m.succIdx i) else some (m.succIdx i) from rfl]
      rw [hns']
      simp

/-- If some backward iterate within the fuel bound is a non-separator,
the fueled skip loop of `Menu::previous` succeeds likewise. -/
theorem Menu.previousAux_finds (m : Menu) (hlen : 0 < m.children.length) :
    ∀ fuel i, i < m.children.length →
    (∃ d, d < fuel ∧ (m.childAt (m.iterPred (d + 1) i)).isSeparator = false) →
    ∃ j, m.previousAux fuel i = some j ∧ j < m.children.length ∧
      (m.childAt j).isSeparator = false := by
  intro fuel
  induction fuel with
  | zero =>
    rintro i _ ⟨d, hd, _⟩
    omega
  | succ fuel ih =>
    rintro i hi ⟨d, hd, hns⟩
    have hplt : m.predIdx i < m.children.length := by
      unfold Menu.predIdx
      split_ifs <;> omega
    by_cases hsep : (m.childAt (m.predIdx i)).isSeparator = true
    · have hd0 : d ≠ 0 := by
        intro h0
        subst h0
        have h1 : m.iterPred 1 i = m.predIdx i := rfl
        rw [h1] at hns
        rw [hns] at hsep
        cases hsep
      obtain ⟨d', rfl⟩ : ∃ d', d = d' + 1 := ⟨d - 1, by omega⟩
      have hstep : m.iterPred (d' + 1 + 1) i = m.iterPred (d' + 1) (m.predIdx i) := rfl
      rw [hstep] at hns
      obtain ⟨j, hj, hjlt, hjns⟩ := ih (m.predIdx i) hplt ⟨d', by omega, hns⟩
      refine ⟨j, ?_, hjlt, hjns⟩
      rw [show m.previousAux (fuel + 1) i = if (m.childAt (m.predIdx i)).isSeparator then m.previousAux fuel (m.predIdx i) else some (m.predIdx i) from rfl]
      rw [hsep]
      simpa using hj
    · have hns' : (m.childAt (m.predIdx i)).isSeparator = false := by
        simpa using hsep
      refine ⟨m.predIdx i, ?_, hplt, hns'⟩
      rw [show m.previousAux (fuel + 1) i = if (m.childAt (m.predIdx i)).isSeparator then m.previousAux fuel (m.predIdx i) else some (m.predIdx i) from rfl]
      rw [hns']
      simp

/-- `Menu::next` from any in-bounds index of a menu with a
non-separator child lands on an in-bounds non-separator. -/
theorem Menu.next_finds (m : Menu) (i : Nat) (hi : i < m.children.length)
    (hex : ∃ k, k < m.children.length ∧ (m.childAt k).isSeparator = false) :
    ∃ j, m.next i = some j ∧ j < m.children.length ∧
      (m.childAt j).isSeparator = false := by
  obtain ⟨k, hk, hkns⟩ := hex
  obtain ⟨d, hd, hreach⟩ := m.exists_succ_reach i k hi hk
  exact m.nextAux_finds (by omega) m.children.length i ⟨d, hd, by rw [hreach]; exact hkns⟩

/-- `Menu::previous` from any in-bounds index of a menu with a
non-separator child lands on an in-bounds non-separator. -/
theorem Menu.previous_finds (m : Menu) (i : Nat) (hi : i < m.children.length)
    (hex : ∃ k, k < m.children.length ∧ (m.childAt k).isSeparator = false) :
    ∃ j, m.previous i = some j ∧ j < m.children.length ∧
      (m.childAt j).isSeparator = false := by
  obtain ⟨k, hk, hkns⟩ := hex
  obtain ⟨d, hd, hreach⟩ := m.exists_pred_reach i k hi hk
  exact m.previousAux_finds (by omega) m.children.length i hi
    ⟨d, hd, by rw [hreach]; exact hkns⟩

/-- Claim C4: for any menu with at least one non-separator child and
any in-bounds starting index, `Menu::previous` and `Menu::next` land on
an in-bounds entry that is not a `Separator`; and in the concrete
5-item menu whose index-2 entry is a separator, `next(1)` returns 3. -/
theorem menu_movement_avoids_separators (m : Menu) (i : Nat)
    (hi : i < m.children.length)
    (hex : ∃ k, k < m.children.length ∧ (m.childAt k).isSeparator = false) :
    (∃ j, m.next i = some j ∧ j < m.children.length ∧
      (m.childAt j).isSeparator = false) ∧
    (∃ j, m.previous i = some j ∧ j < m.children.length ∧
      (m.childAt j).isSeparator = false) ∧
    exMenu5.next 1 = some 3 ∧ exMenu5.previous 3 = some 1 :=
  ⟨m.next_finds i hi hex, m.previous_finds i hi hex, by decide, by decide⟩

/-- Witness for the claim C4 theorem at the example menu, starting at
index 1 (just above the separator). -/
theorem menu_movement_avoids_separators_witness :
    (1 < exMenu5.children.length ∧
      (∃ k, k < exMenu5.children.length ∧ (exMenu5.childAt k).isSeparator = false)) ∧
    ((∃ j, exMenu5.next 1 = some j ∧ j < exMenu5.children.length ∧
      (exMenu5.childAt j).isSeparator = false) ∧
    (∃ j, exMenu5.previous 1 = some j ∧ j < exMenu5.children.length ∧
      (exMenu5.childAt j).isSeparator = false) ∧
    exMenu5.next 1 = some 3 ∧ exMenu5.previous 3 = some 1) :=
  ⟨⟨by decide, ⟨0, by decide⟩⟩,
    menu_movement_avoids_separators exMenu5 1 (by decide) ⟨0, by decide⟩⟩

/-- Claim C6: the separator-skipping recursion of `Menu::previous` and
`Menu::next` terminates whenever the menu has at least one
non-separator child: with fuel equal to the child count — one unit per
skipped entry — the loop returns before exhausting it, from any
in-bounds index. -/
theorem menu_movement_terminates (m : Menu) (i : Nat)
    (hi : i < m.children.length)
    (hex : ∃ k, k < m.children.length ∧ (m.childAt k).isSeparator = false) :
    (m.next i).isSome ∧ (m.previous i).isSome := by
  obtain ⟨j₁, hj₁, _, _⟩ := m.next_finds i hi hex
  obtain ⟨j₂, hj₂, _, _⟩ := m.previous_finds i hi hex
  rw [hj₁, hj₂]
  exact ⟨rfl, rfl⟩

/-- Witness for the claim C6 theorem at the example menu, starting at
the last index (both moves wrap). -/
theorem menu_movement_terminates_witness :
    (4 < exMenu5.children.length ∧
      (∃ k, k < exMenu5.children.length ∧ (exMenu5.childAt k).isSeparator = false)) ∧
    ((exMenu5.next 4).isSome ∧ (exMenu5.previous 4).isSome) :=
  ⟨⟨by decide, ⟨0, by decide⟩⟩,
    menu_movement_terminates exMenu5 4 (by decide) ⟨0, by decide⟩⟩

/-! ### Render diffing: supporting lemmas -/

/-- Membership of the row-major iteration space is exactly being in
bounds. -/
theorem rowMajor_mem (w h : Nat) (p : Nat × Nat) :
    p ∈ rowMajor w h ↔ p.1 < w ∧ p.2 < h := by
  unfold rowMajor
  simp only [List.mem_flatMap, List.mem_map, List.mem_range]
  constructor
  · rintro ⟨row, hrow, col, hcol, rfl⟩
    exact ⟨hcol, hrow⟩
  · rintro ⟨h1, h2⟩
    exact ⟨p.2, h2, p.1, h1, rfl⟩

/-- An in-bounds position has the row-major index. -/
theorem Grid.idx_of_some (g : Grid) (p : Nat × Nat)
    (h1 : p.1 < g.size.1) (h2 : p.2 < g.size.2) :
    g.idx_of p = some (g.size.1 * p.2 + p.1) := by
  unfold Grid.idx_of
  rw [if_pos ⟨h1, h2⟩]

/-- An out-of-bounds position has no index. -/
theorem Grid.idx_of_oob (g : Grid) (p : Nat × Nat)
    (h : ¬(p.1 < g.size.1 ∧ p.2 < g.size.2)) :
    g.idx_of p = none := by
  unfold Grid.idx_of
  rw [if_neg h]

/-- Inversion for `idx_of`. -/
theorem Grid.idx_of_inv (g : Grid) (p : Nat × Nat) (idx : Nat)
    (h : g.idx_of p = some idx) :
    p.1 < g.size.1 ∧ p.2 < g.size.2 ∧ idx = g.size.1 * p.2 + p.1 := by
  unfold Grid.idx_of at h
  split_ifs at h with hc
  · cases h
    exact ⟨hc.1, hc.2, rfl⟩

/-- Reading through a resolved index. -/
theorem Grid.get_eq_of_idx (g : Grid) (p : Nat × Nat) (idx : Nat)
    (h : g.idx_of p = some idx) :
    g.get p = (g.cells[idx]?).getD Cell.default := by
  unfold Grid.get
  rw [h, Option.some_bind]

/-- Reading out of bounds gives the default cell. -/
theorem Grid.get_eq_default (g : Grid) (p : Nat × Nat) (h : g.idx_of p = none) :
    g.get p = Cell.default := by
  unfold Grid.get
  rw [h, Option.none_bind]
  rfl

/-- The row-major index of an in-bounds position is below the area. -/
theorem idx_lt_area (w h : Nat) (p : Nat × Nat) (h1 : p.1 < w) (h2 : p.2 < h) :
    w * p.2 + p.1 < w * h :=
  calc w * p.2 + p.1 < w * p.2 + w := by omega
    _ = w * (p.2 + 1) := by ring
    _ ≤ w * h := Nat.mul_le_mul_left w h2

/-- Row-major indexing is injective on in-bounds positions. -/
theorem idx_inj (w : Nat) (p q : Nat × Nat) (hp : p.1 < w) (hq : q.1 < w)
    (h : w * p.2 + p.1 = w * q.2 + q.1) : p = q := by
  have hw : 0 < w := by omega
  have e1 : (w * p.2 + p.1) % w = p.1 := by
    rw [Nat.mul_add_mod, Nat.mod_eq_of_lt hp]
  have e2 : (w * q.2 + q.1) % w = q.1 := by
    rw [Nat.mul_add_mod, Nat.mod_eq_of_lt hq]
  have e3 : (w * p.2 + p.1) / w = p.2 := by
    rw [Nat.mul_add_div hw, Nat.div_eq_of_lt hp, Nat.add_zero]
  have e4 : (w * q.2 + q.1) / w = q.2 := by
    rw [Nat.mul_add_div hw, Nat.div_eq_of_lt hq, Nat.add_zero]
  have hfst : p.1 = q.1 := by rw [← e1, ← e2, h]
  have hsnd : p.2 = q.2 := by rw [← e3, ← e4, h]
  exact Prod.ext hfst hsnd

/-- The diff step succeeds at every in-bounds position of a front grid
whose cell vector covers its area. -/
theorem renderStep_isSome (back : Grid) (st : RState) (p : Nat × Nat)
    (h1 : p.1 < st.front.size.1) (h2 : p.2 < st.front.size.2)
    (hlen : st.front.size.1 * st.front.size.2 ≤ st.front.cells.length) :
    ∃ st', renderStep back st p = some st' := by
  have hidx := st.front.idx_of_some p h1 h2
  have hlt : st.front.size.1 * p.2 + p.1 < st.front.cells.length :=
    lt_of_lt_of_le (idx_lt_area _ _ p h1 h2) hlen
  unfold renderStep
  rw [hidx, Option.some_bind, if_pos hlt]
  split_ifs <;> exact ⟨_, rfl⟩

/-- The diff step never changes the front grid's size or cell count. -/
theorem renderStep_front_geom (back : Grid) (st st' : RState) (p : Nat × Nat)
    (h : renderStep back st p = some st') :
    st'.front.size = st.front.size ∧ st'.front.cells.length = st.front.cells.length := by
  unfold renderStep at h
  cases hidx : st.front.idx_of p with
  | none =>
    rw [hidx, Option.none_bind] at h
    cases h
  | some idx =>
    rw [hidx, Option.some_bind] at h
    by_cases hlt : idx < st.front.cells.length
    · rw [if_pos hlt] at h
      by_cases heq : (st.front.cells[idx]?).getD Cell.default = back.get p
      · rw [if_pos heq] at h
        cases h
        exact ⟨rfl, rfl⟩
      · rw [if_neg heq] at h
        cases h
        exact ⟨rfl, by simp [List.length_set]⟩
    · rw [if_neg hlt] at h
      cases h

/-- The diff step makes the front agree with the back at the processed
position, and keeps any agreement already established elsewhere. -/
theorem renderStep_get (back : Grid) (st st' : RState) (p : Nat × Nat)
    (h : renderStep back st p = some st') (q : Nat × Nat) :
    (q = p → st'.front.get q = back.get q) ∧
    (st.front.get q = back.get q → st'.front.get q = back.get q) := by
  unfold renderStep at h
  cases hidx : st.front.idx_of p with
  | none =>
    rw [hidx, Option.none_bind] at h
    cases h
  | some idx =>
    rw [hidx, Option.some_bind] at h
    by_cases hlt : idx < st.front.cells.length
    · rw [if_pos hlt] at h
      by_cases heq : (st.front.cells[idx]?).getD Cell.default = back.get p
      · rw [if_pos heq] at h
        cases h
        refine ⟨?_, fun hq => hq⟩
        rintro rfl
        rw [st.front.get_eq_of_idx q idx hidx, heq]
      · rw [if_neg heq] at h
        cases h
        obtain ⟨hp1, hp2, hidxv⟩ := st.front.idx_of_inv p idx hidx
        have hio : ∀ r, ((⟨st.front.size, st.front.cells.set idx (back.get p)⟩ : Grid)).idx_of r
            = st.front.idx_of r := fun r => rfl
        constructor
        · rintro rfl
          rw [Grid.get_eq_of_idx _ q idx ((hio q).trans hidx)]
          show ((st.front.cells.set idx (back.get q))[idx]?).getD Cell.default = back.get q
          rw [List.getElem?_set_eq_of_lt _ hlt]
          rfl
        · intro hq
          cases hiq : st.front.idx_of q with
          | none =>
            rw [Grid.get_eq_default _ q ((hio q).trans hiq)]
            rw [Grid.get_eq_default _ q hiq] at hq
            exact hq
          | some iq =>
            by_cases hne : iq = idx
            · subst hne
              obtain ⟨hq1, hq2, hiqv⟩ := st.front.idx_of_inv q iq hiq
              have hqp : q = p := idx_inj st.front.size.1 q p hq1 hp1 (by omega)
              subst hqp
              rw [st.front.get_eq_of_idx q iq hiq] at hq
              exact absurd hq heq
            · rw [Grid.get_eq_of_idx _ q iq ((hio q).trans hiq)]
              rw [st.front.get_eq_of_idx q iq hiq] at hq
              show ((st.front.cells.set idx (back.get p))[iq]?).getD Cell.default = back.get q
              rw [List.getElem?_set_ne (fun hcontra => hne hcontra.symm)]
              exact hq
    · rw [if_neg hlt] at h
      cases h

/-- The diff step is the identity at an in-bounds position where front
and back already agree. -/
theorem renderStep_id (back : Grid) (st : RState) (p : Nat × Nat)
    (h1 : p.1 < st.front.size.1) (h2 : p.2 < st.front.size.2)
    (hlen : st.front.size.1 * st.front.size.2 ≤ st.front.cells.length)
    (hagree : st.front.get p = back.get p) :
    renderStep back st p = some st := by
  have hidx := st.front.idx_of_some p h1 h2
  have hlt : st.front.size.1 * p.2 + p.1 < st.front.cells.length :=
    lt_of_lt_of_le (idx_lt_area _ _ p h1 h2) hlen
  rw [st.front.get_eq_of_idx p _ hidx] at hagree
  unfold renderStep
  rw [hidx, Option.some_bind, if_pos hlt, if_pos hagree]

/-- The whole diff fold succeeds on a covered front grid and keeps its
geometry. -/
theorem foldlM_renderStep_some (back : Grid) :
    ∀ (L : List (Nat × Nat)) (st : RState),
    (∀ p ∈ L, p.1 < st.front.size.1 ∧ p.2 < st.front.size.2) →
    st.front.size.1 * st.front.size.2 ≤ st.front.cells.length →
    ∃ st', L.foldlM (renderStep back) st = some st' ∧
      st'.front.size = st.front.size ∧ st'.front.cells.length = st.front.cells.length := by
  intro L
  induction L with
  | nil =>
    intro st _ _
    exact ⟨st, rfl, rfl, rfl⟩
  | cons p rest ih =>
    intro st hin hlen
    obtain ⟨st1, hst1⟩ :=
      renderStep_isSome back st p (hin p (by simp)).1 (hin p (by simp)).2 hlen
    obtain ⟨hsz, hln⟩ := renderStep_front_geom back st st1 p hst1
    obtain ⟨st', hfold, hsz', hln'⟩ := ih st1
      (fun q hq => by rw [hsz]; exact hin q (List.mem_cons_of_mem p hq))
      (by rw [hsz, hln]; exact hlen)
    refine ⟨st', ?_, by rw [hsz', hsz], by rw [hln', hln]⟩
    rw [List.foldlM_cons, hst1]
    exact hfold

/-- After the diff fold, the front agrees with the back at every
position of the iteration list, and any prior agreement persists. -/
theorem foldlM_renderStep_agree (back : Grid) :
    ∀ (L : List (Nat × Nat)) (st st' : RState),
    L.foldlM (renderStep back) st = some st' →
    ∀ q, (q ∈ L ∨ st.front.get q = back.get q) → st'.front.get q = back.get q := by
  intro L
  induction L with
  | nil =>
    intro st st' hfold q hq
    cases hfold
    rcases hq with hq | hq
    · cases hq
    · exact hq
  | cons p rest ih =>
    intro st st' hfold q hq
    rw [List.foldlM_cons] at hfold
    cases hst1 : renderStep back st p with
    | none =>
      rw [hst1] at hfold
      cases hfold
    | some st1 =>
      rw [hst1] at hfold
      apply ih st1 st' hfold q
      rcases hq with hq | hq
      · rcases List.mem_cons.mp hq with rfl | hq'
        · exact Or.inr ((renderStep_get back st st1 q hst1 q).1 rfl)
        · exact Or.inl hq'
      · exact Or.inr ((renderStep_get back st st1 p hst1 q).2 hq)

/-- A full `render_ansi` pass on a well-formed buffer succeeds and
commits the back grid into the front: afterwards the two agree at every
position (in bounds or out). -/
theorem render_ansi_commits (rb : RenderBuffer)
    (hf : rb.front.size = rb.size) (hb : rb.back.size = rb.size)
    (hlen : rb.size.1 * rb.size.2 ≤ rb.front.cells.length) :
    ∃ out rb', rb.render_ansi = some (out, rb') ∧
      rb'.back = rb.back ∧ rb'.size = rb.size ∧
      rb'.front.size = rb.size ∧ rb'.front.cells.length = rb.front.cells.length ∧
      ∀ q, rb'.front.get q = rb'.back.get q := by
  obtain ⟨st', hfold, hsz, hln⟩ := foldlM_renderStep_some rb.back
    (rowMajor rb.size.1 rb.size.2) ⟨[], rb.front, (1, 1), DEFAULT_FG, DEFAULT_BG⟩
    (fun p hp => by
      have := (rowMajor_mem rb.size.1 rb.size.2 p).mp hp
      simp only
      rw [hf]
      exact this)
    (by simp only; rw [hf]; exact hlen)
  have hs : st'.front.size = rb.size := hsz.trans hf
  refine ⟨st'.out, ⟨rb.size, st'.front, rb.back, rb.fg, rb.bg⟩, ?_, rfl, rfl, hs, hln, ?_⟩
  · unfold RenderBuffer.render_ansi
    rw [hfold]
    rfl
  · intro q
    show st'.front.get q = rb.back.get q
    by_cases hq : q.1 < rb.size.1 ∧ q.2 < rb.size.2
    · exact foldlM_renderStep_agree rb.back _ _ _ hfold q
        (Or.inl ((rowMajor_mem _ _ q).mpr hq))
    · have h1 : st'.front.idx_of q = none :=
        Grid.idx_of_oob _ q (by rw [hs]; exact hq)
      have h2 : rb.back.idx_of q = none :=
        Grid.idx_of_oob _ q (by rw [hb]; exact hq)
      rw [Grid.get_eq_default _ q h1, Grid.get_eq_default _ q h2]

/-- A `render_ansi` pass on a well-formed buffer whose front already
agrees with its back everywhere emits nothing and leaves the buffer
unchanged. -/
theorem render_ansi_noop (rb : RenderBuffer)
    (hf : rb.front.size = rb.size)
    (hlen : rb.size.1 * rb.size.2 ≤ rb.front.cells.length)
    (hagree : ∀ q, rb.front.get q = rb.back.get q) :
    rb.render_ansi = some ([], rb) := by
  have key : ∀ (L : List (Nat × Nat)) (st : RState), st.front = rb.front →
      (∀ p ∈ L, p.1 < rb.size.1 ∧ p.2 < rb.size.2) →
      L.foldlM (renderStep rb.back) st = some st := by
    intro L
    induction L with
    | nil =>
      intro st _ _
      rfl
    | cons p rest ih =>
      intro st hst hin
      have hstep : renderStep rb.back st p = some st := by
        apply renderStep_id
        · rw [hst, hf]
          exact (hin p (by simp)).1
        · rw [hst, hf]
          exact (hin p (by simp)).2
        · rw [hst, hf]
          exact hlen
        · rw [hst]
          exact hagree p
      rw [List.foldlM_cons, hstep]
      exact ih st hst (fun q hq => hin q (List.mem_cons_of_mem p hq))
  have hrun := key (rowMajor rb.size.1 rb.size.2)
    ⟨[], rb.front, (1, 1), DEFAULT_FG, DEFAULT_BG⟩ rfl
    (fun p hp => (rowMajor_mem rb.size.1 rb.size.2 p).mp hp)
  unfold RenderBuffer.render_ansi
  rw [hrun]
  rfl

/-- Claim C3: on a well-formed shadow pair (grid sizes match the buffer
size and the front's cell vector covers its area), a `render_ansi` pass
leaves front equal to back at every position, and therefore a second
pass with no intervening `set` emits an empty instruction stream and
changes nothing. -/
theorem render_ansi_idempotent (rb : RenderBuffer)
    (hf : rb.front.size = rb.size) (hb : rb.back.size = rb.size)
    (hlen : rb.size.1 * rb.size.2 ≤ rb.front.cells.length) :
    ∃ out rb', rb.render_ansi = some (out, rb') ∧
      (∀ q, rb'.front.get q = rb'.back.get q) ∧
      rb'.render_ansi = some ([], rb') := by
  obtain ⟨out, rb', hrender, hback, hsz, hfsz, hflen, hagree⟩ :=
    render_ansi_commits rb hf hb hlen
  refine ⟨out, rb', hrender, hagree, ?_⟩
  apply render_ansi_noop
  · rw [hfsz, hsz]
  · rw [hsz, hflen]
    exact hlen.trans (le_of_eq rfl)
  · exact hagree

/-- Witness for the claim C3 theorem at the concrete 2×1 buffer with
one dirty cell. -/
theorem render_ansi_idempotent_witness :
    (exRenderBuffer.front.size = exRenderBuffer.size ∧
      exRenderBuffer.back.size = exRenderBuffer.size ∧
      exRenderBuffer.size.1 * exRenderBuffer.size.2 ≤ exRenderBuffer.front.cells.length) ∧
    (∃ out rb', exRenderBuffer.render_ansi = some (out, rb') ∧
      (∀ q, rb'.front.get q = rb'.back.get q) ∧
      rb'.render_ansi = some ([], rb')) :=
  ⟨⟨by decide, by decide, by decide⟩,
    render_ansi_idempotent exRenderBuffer (by decide) (by decide) (by decide)⟩

end Diesel





